import Mathlib

/-!
Shallow embedding of the QuoteSlate quote-retrieval core (src/api.js):
normalization, exact and partial matching predicates, the two matcher
functions `getQuotes` and `searchQuotes`, and the draw-without-replacement
sampling loop, together with theorems about them.

Conventions of the embedding:
* A JavaScript exception (`decodeURIComponent` throwing `URIError` on a
  malformed percent-escape) is modelled with `Option`: `none` is a thrown
  error, `some v` a normal return of `v`.
* `Math.floor(Math.random() * n)`, an arbitrary natural below `n`, is
  modelled by `rand i % n` for an arbitrary stream `rand : Nat → Nat`
  (`i` counts the draws of one call); every value below `n` is realised
  by some stream, and no other value is.
* JavaScript strings are modelled by `String`; `trim` and `toLowerCase`
  are modelled by their ASCII behaviour (the corpus data is ASCII).
-/

set_option maxHeartbeats 1000000

namespace QuoteSlate

/-- A quote record as loaded from `data/quotes.json`: the fields the core
reads are `author`, `tags` and the precomputed `length`. -/
structure Quote where
  text : String
  author : String
  tags : List String
  length : Int
deriving Repr, DecidableEq

/-- The argument record of `getQuotes` (JS destructuring
`{maxLength, minLength, tags, count, authors}`; `null` is `none`). -/
structure GetCriteria where
  maxLength : Option Int
  minLength : Option Int
  tags : Option (List String)
  count : Int
  authors : Option (List String)
deriving Repr, DecidableEq

/-- The argument record of `searchQuotes` (JS destructuring
`{maxLength, minLength, tagTerms, limit, authorTerms}`; the two term
fields default to `[]` and are always arrays). -/
structure SearchCriteria where
  maxLength : Option Int
  minLength : Option Int
  tagTerms : List String
  limit : Int
  authorTerms : List String
deriving Repr, DecidableEq

/-! ### JavaScript string primitives -/

/-- Value of a hexadecimal digit character, `none` if not a hex digit. -/
def hexDigitVal (c : Char) : Option Nat :=
  if '0' ≤ c ∧ c ≤ '9' then some (c.toNat - 48)
  else if 'A' ≤ c ∧ c ≤ 'F' then some (c.toNat - 55)
  else if 'a' ≤ c ∧ c ≤ 'f' then some (c.toNat - 87)
  else none

/-- First pass of `decodeURIComponent`: replace each `%hh` escape by the
byte it denotes (`Sum.inr`), keep other characters (`Sum.inl`); a `%` not
followed by two hex digits is a `URIError`. -/
def pctTokens : List Char → Option (List (Sum Char Nat))
  | [] => some []
  | '%' :: h1 :: h2 :: rest => do
      let a ← hexDigitVal h1
      let b ← hexDigitVal h2
      let ts ← pctTokens rest
      some (Sum.inr (16 * a + b) :: ts)
  | '%' :: _ => none
  | c :: rest => do
      let ts ← pctTokens rest
      some (Sum.inl c :: ts)

/-- Is `b` a UTF-8 continuation byte? -/
def isCont (b : Nat) : Bool := 0x80 ≤ b ∧ b ≤ 0xBF

/-- Second pass of `decodeURIComponent`: UTF-8-decode the byte runs
produced by the escapes; malformed sequences (bad lead byte, missing or
bad continuation bytes, overlong forms, surrogates, out-of-range code
points) are a `URIError`. -/
def utf8Decode : List (Sum Char Nat) → Option (List Char)
  | [] => some []
  | Sum.inl c :: ts => do
      let cs ← utf8Decode ts
      some (c :: cs)
  | Sum.inr b :: ts =>
      if b < 0x80 then do
        let cs ← utf8Decode ts
        some (Char.ofNat b :: cs)
      else if 0xC2 ≤ b ∧ b ≤ 0xDF then
        match ts with
        | Sum.inr b2 :: ts2 =>
            if isCont b2 then do
              let cs ← utf8Decode ts2
              some (Char.ofNat ((b - 0xC0) * 0x40 + (b2 - 0x80)) :: cs)
            else none
        | _ => none
      else if 0xE0 ≤ b ∧ b ≤ 0xEF then
        match ts with
        | Sum.inr b2 :: Sum.inr b3 :: ts2 =>
            let cp := (b - 0xE0) * 0x1000 + (b2 - 0x80) * 0x40 + (b3 - 0x80)
            if isCont b2 ∧ isCont b3 ∧ 0x800 ≤ cp ∧ ¬(0xD800 ≤ cp ∧ cp ≤ 0xDFFF) then do
              let cs ← utf8Decode ts2
              some (Char.ofNat cp :: cs)
            else none
        | _ => none
      else if 0xF0 ≤ b ∧ b ≤ 0xF4 then
        match ts with
        | Sum.inr b2 :: Sum.inr b3 :: Sum.inr b4 :: ts2 =>
            let cp := (b - 0xF0) * 0x40000 + (b2 - 0x80) * 0x1000 +
              (b3 - 0x80) * 0x40 + (b4 - 0x80)
            if isCont b2 ∧ isCont b3 ∧ isCont b4 ∧ 0x10000 ≤ cp ∧ cp ≤ 0x10FFFF then do
              let cs ← utf8Decode ts2
              some (Char.ofNat cp :: cs)
            else none
        | _ => none
      else none

/-- `decodeURIComponent`: `none` models a thrown `URIError`. -/
def percentDecode (s : String) : Option String :=
  (pctTokens s.data).bind fun ts =>
  (utf8Decode ts).bind fun cs =>
  some (String.mk cs)

/-- ASCII whitespace as stripped by `String.prototype.trim` (space, tab,
line feed, vertical tab, form feed, carriage return). -/
def isJsWhitespace (c : Char) : Bool :=
  c == ' ' || c == '\t' || c == '\n' || c == Char.ofNat 11 || c == Char.ofNat 12 || c == '\r'

/-- `String.prototype.trim` (ASCII whitespace model): drop whitespace from
both ends. -/
def jsTrim (s : String) : String :=
  String.mk (((s.data.dropWhile isJsWhitespace).reverse.dropWhile isJsWhitespace).reverse)

/-- `String.prototype.toLowerCase` (ASCII model): lowercase each character. -/
def jsToLower (s : String) : String := String.mk (s.data.map Char.toLower)

/-- Does the character list `s` start with `pre`? (helper for substring
search). -/
def leadsWith : List Char → List Char → Bool
  | _, [] => true
  | [], _ :: _ => false
  | a :: as, b :: bs => a == b && leadsWith as bs

/-- Does `sub` occur as a contiguous run inside `s`? (helper for
`String.prototype.includes`). -/
def hasSub : List Char → List Char → Bool
  | [], sub => sub.isEmpty
  | a :: as, sub => leadsWith (a :: as) sub || hasSub as sub

/-- `s.includes(sub)` of JavaScript. -/
def jsIncludes (s sub : String) : Bool := hasSub s.data sub.data

/-! ### JavaScript iteration with exception propagation

`Array.prototype.some` / `every` / `filter` evaluate their callback left
to right; a thrown exception propagates, and `some` / `every`
short-circuit on the first decisive element. -/

/-- `Array.prototype.some` with an exception-throwing callback. -/
def jsSome {α : Type} (f : α → Option Bool) : List α → Option Bool
  | [] => some false
  | a :: as => (f a).bind fun b => if b then some true else jsSome f as

/-- `Array.prototype.every` with an exception-throwing callback. -/
def jsEvery {α : Type} (f : α → Option Bool) : List α → Option Bool
  | [] => some true
  | a :: as => (f a).bind fun b => if b then jsEvery f as else some false

/-- `Array.prototype.filter` with an exception-throwing callback. -/
def jsFilter {α : Type} (f : α → Option Bool) : List α → Option (List α)
  | [] => some []
  | a :: as =>
      (f a).bind fun b =>
      (jsFilter f as).bind fun rest =>
      some (if b then a :: rest else rest)

/-! ### Normalization and predicates (src/api.js lines 24-69) -/

/-- `normalizeAuthorName`: `decodeURIComponent(author).trim().toLowerCase()`;
`none` models the `URIError` thrown on a malformed escape. -/
def normalizeAuthorName (author : String) : Option String :=
  (percentDecode author).bind fun d => some (jsToLower (jsTrim d))

/-- `hasMatchingAuthor(quote, requestedAuthors)`: vacuously true when the
argument is `null`; otherwise true iff some requested author normalizes to
the quote's normalized author.  Note the JS guard `!requestedAuthors` is
false for an empty array, so `some []` falls through to `[].some`,
which is `false`. -/
def hasMatchingAuthor (quote : Quote) (requestedAuthors : Option (List String)) :
    Option Bool :=
  match requestedAuthors with
  | none => some true
  | some la =>
      (normalizeAuthorName quote.author).bind fun quoteAuthor =>
      jsSome (fun author =>
        (normalizeAuthorName author).bind fun na =>
        some (na == quoteAuthor)) la

/-- `hasPartialAuthorMatch(quote, searchTerms)`: true when the argument is
`null` or empty; otherwise true iff every normalized term is contained in
the normalized author name. -/
def hasPartialAuthorMatch (quote : Quote) (searchTerms : Option (List String)) :
    Option Bool :=
  match searchTerms with
  | none => some true
  | some ts =>
      if ts.length = 0 then some true
      else
        (normalizeAuthorName quote.author).bind fun quoteAuthor =>
        jsEvery (fun term =>
          (normalizeAuthorName term).bind fun nt =>
          some (jsIncludes quoteAuthor nt)) ts

/-- `hasMatchingTags(quote, requestedTags)`: vacuously true when the
argument is `null`; otherwise true iff every requested tag is a member of
the quote's tag set (`Set.has`, exact string equality). -/
def hasMatchingTags (quote : Quote) (requestedTags : Option (List String)) : Bool :=
  match requestedTags with
  | none => true
  | some lt => lt.all (fun tag => quote.tags.contains tag)

/-- `hasPartialTagMatch(quote, tagTerms)`: true when the argument is `null`
or empty; otherwise true iff every term, lowercased, is contained in at
least one lowercased tag of the quote. -/
def hasPartialTagMatch (quote : Quote) (tagTerms : Option (List String)) : Bool :=
  match tagTerms with
  | none => true
  | some ts =>
      if ts.length = 0 then true
      else
        let quoteTags := quote.tags.map jsToLower
        ts.all (fun term => quoteTags.any (fun tag => jsIncludes tag (jsToLower term)))

/-! ### The sampling loop (src/api.js lines 114-124 and 172-182) -/

/-- The sampling loop shared verbatim by `getQuotes` and `searchQuotes`:
`k` draws remain, `i` counts the draws done so far, `temp` is the working
copy; each draw takes the element at `rand i % temp.length` and removes it
(`splice(idx, 1)` is `eraseIdx`).  The `none` branch is unreachable in the
callers, which always enter the loop with `k ≤ temp.length`. -/
def sampleLoop {α : Type} (rand : Nat → Nat) : Nat → Nat → List α → List α
  | _, 0, _ => []
  | i, k + 1, temp =>
      let idx := rand i % temp.length
      match temp[idx]? with
      | none => []
      | some q => q :: sampleLoop rand (i + 1) k (temp.eraseIdx idx)

/-! ### The matchers (src/api.js lines 71-183) -/

/-- `getQuotes` (src/api.js lines 72-125).  The corpus `quotesData` and
the random stream are explicit parameters; the outer `Option` is
exception propagation, the inner `Option (List Quote)` is the
null-vs-array return value.  Note `if (authors)` and `if (tags)` are
truthy for an empty array, so the corresponding filter runs for `some []`. -/
def getQuotes (quotesData : List Quote) (rand : Nat → Nat) (c : GetCriteria) :
    Option (Option (List Quote)) :=
  let validQuotes := quotesData
  (match c.authors with
   | none => some validQuotes
   | some la => jsFilter (fun quote => hasMatchingAuthor quote (some la)) validQuotes).bind
  fun validQuotes =>
  let validQuotes :=
    match c.tags with
    | none => validQuotes
    | some lt => validQuotes.filter (fun quote => hasMatchingTags quote (some lt))
  if validQuotes.length = 0 then
    some none
  else
    let validQuotes :=
      match c.minLength with
      | none => validQuotes
      | some m => validQuotes.filter (fun quote => m ≤ quote.length)
    let validQuotes :=
      match c.maxLength with
      | none => validQuotes
      | some m => validQuotes.filter (fun quote => quote.length ≤ m)
    if validQuotes.length = 0 then
      some none
    else
      let count := min c.count (validQuotes.length : Int)
      some (some (sampleLoop rand 0 count.toNat validQuotes))

/-- `searchQuotes` (src/api.js lines 128-183).  The term arrays are plain
lists (their JS defaults are `[]`); the guards skip the filters when a
term array is empty. -/
def searchQuotes (quotesData : List Quote) (rand : Nat → Nat) (s : SearchCriteria) :
    Option (Option (List Quote)) :=
  let validQuotes := quotesData
  (if s.authorTerms.length > 0 then
    jsFilter (fun quote => hasPartialAuthorMatch quote (some s.authorTerms)) validQuotes
  else
    some validQuotes).bind
  fun validQuotes =>
  let validQuotes :=
    if s.tagTerms.length > 0 then
      validQuotes.filter (fun quote => hasPartialTagMatch quote (some s.tagTerms))
    else
      validQuotes
  if validQuotes.length = 0 then
    some none
  else
    let validQuotes :=
      match s.minLength with
      | none => validQuotes
      | some m => validQuotes.filter (fun quote => m ≤ quote.length)
    let validQuotes :=
      match s.maxLength with
      | none => validQuotes
      | some m => validQuotes.filter (fun quote => quote.length ≤ m)
    if validQuotes.length = 0 then
      some none
    else
      let limit := min s.limit (validQuotes.length : Int)
      some (some (sampleLoop rand 0 limit.toNat validQuotes))

/-! ### Specification-level composite predicates -/

/-- Inclusive lower length bound (`quote.length >= minLength` when given). -/
def minLengthOk (m : Option Int) (q : Quote) : Bool :=
  match m with
  | none => true
  | some v => decide (v ≤ q.length)

/-- Inclusive upper length bound (`quote.length <= maxLength` when given). -/
def maxLengthOk (m : Option Int) (q : Quote) : Bool :=
  match m with
  | none => true
  | some v => decide (q.length ≤ v)

/-- The pointwise conjunction of the author, tag and length filters of
`getQuotes` for criteria `c` (the author conjunct is stated on the
exception-free outcome of `hasMatchingAuthor`; the conjuncts are nested
in the shape that composing the four filters produces). -/
def matchesAllGet (c : GetCriteria) (q : Quote) : Bool :=
  maxLengthOk c.maxLength q &&
    (minLengthOk c.minLength q &&
      (hasMatchingTags q c.tags && (hasMatchingAuthor q c.authors == some true)))

/-- The pointwise conjunction of the partial author, partial tag and
length filters of `searchQuotes` for criteria `s`. -/
def matchesAllSearch (s : SearchCriteria) (q : Quote) : Bool :=
  maxLengthOk s.maxLength q &&
    (minLengthOk s.minLength q &&
      (hasPartialTagMatch q (some s.tagTerms) &&
        (hasPartialAuthorMatch q (some s.authorTerms) == some true)))

/-- The filter pipeline of `getQuotes` in its source order
(author → tags → minLength → maxLength) without the emptiness checkpoints:
the candidate list that `getQuotes` feeds to the sampling loop. -/
def getQuotesCandidates (quotesData : List Quote) (c : GetCriteria) :
    Option (List Quote) :=
  let validQuotes := quotesData
  (match c.authors with
   | none => some validQuotes
   | some la => jsFilter (fun quote => hasMatchingAuthor quote (some la)) validQuotes).bind
  fun validQuotes =>
  let validQuotes :=
    match c.tags with
    | none => validQuotes
    | some lt => validQuotes.filter (fun quote => hasMatchingTags quote (some lt))
  let validQuotes :=
    match c.minLength with
    | none => validQuotes
    | some m => validQuotes.filter (fun quote => m ≤ quote.length)
  let validQuotes :=
    match c.maxLength with
    | none => validQuotes
    | some m => validQuotes.filter (fun quote => quote.length ≤ m)
  some validQuotes

/-- The filter pipeline of `searchQuotes` in its source order
(partial author → partial tags → minLength → maxLength) without the
emptiness checkpoints: the candidate list that `searchQuotes` feeds to
the sampling loop. -/
def searchQuotesCandidates (quotesData : List Quote) (s : SearchCriteria) :
    Option (List Quote) :=
  let validQuotes := quotesData
  (if s.authorTerms.length > 0 then
    jsFilter (fun quote => hasPartialAuthorMatch quote (some s.authorTerms)) validQuotes
  else
    some validQuotes).bind
  fun validQuotes =>
  let validQuotes :=
    if s.tagTerms.length > 0 then
      validQuotes.filter (fun quote => hasPartialTagMatch quote (some s.tagTerms))
    else
      validQuotes
  let validQuotes :=
    match s.minLength with
    | none => validQuotes
    | some m => validQuotes.filter (fun quote => m ≤ quote.length)
  let validQuotes :=
    match s.maxLength with
    | none => validQuotes
    | some m => validQuotes.filter (fun quote => quote.length ≤ m)
  some validQuotes

/-- Apply a list of boolean filters to a list, left to right. -/
def applyFilters (l : List Quote) (ps : List (Quote → Bool)) : List Quote :=
  ps.foldl (fun acc p => acc.filter p) l

/-! ### A store model for the mutation claim

JavaScript arrays are references into a heap.  `Store` is the heap
restricted to what the core touches: a list of array cells, a reference
being an index.  `[...xs]` allocates a fresh cell, `splice` writes the
cell in place.  The corpus lives in one cell; the matchers are re-run on
this model to state that they never write that cell. -/

abbrev Store := List (List Quote)

/-- Read the array behind reference `r` (a dangling reference reads `[]`;
the functions below never create one). -/
def readArr (st : Store) (r : Nat) : List Quote := st.getD r []

/-- Allocate a fresh array cell holding `v`, returning its reference. -/
def allocArr (st : Store) (v : List Quote) : Nat × Store := (st.length, st ++ [v])

/-- Overwrite the array cell behind reference `r`. -/
def writeArr (st : Store) (r : Nat) (v : List Quote) : Store := st.set r v

/-- The sampling loop on the store model: `tempRef` is the working copy's
cell, and `splice(idx, 1)` is an in-place write of that cell. -/
def sampleLoopSt (rand : Nat → Nat) : Nat → Nat → Store → Nat → List Quote × Store
  | _, 0, st, _ => ([], st)
  | i, k + 1, st, tempRef =>
      let temp := readArr st tempRef
      let idx := rand i % temp.length
      match temp[idx]? with
      | none => ([], st)
      | some q =>
          let st := writeArr st tempRef (temp.eraseIdx idx)
          let rest := sampleLoopSt rand (i + 1) k st tempRef
          (q :: rest.1, rest.2)

/-- `getQuotes` on the store model: the corpus is the cell behind
`corpusRef`; `[...quotesData]` and `[...validQuotes]` allocate fresh
cells, filtering builds new lists, and sampling splices only the
`tempQuotes` cell. -/
def getQuotesSt (rand : Nat → Nat) (st : Store) (corpusRef : Nat) (c : GetCriteria) :
    Option (Option (List Quote)) × Store :=
  let alloc0 := allocArr st (readArr st corpusRef)
  let validRef := alloc0.1
  let st := alloc0.2
  let validQuotes := readArr st validRef
  match
    (match c.authors with
     | none => some validQuotes
     | some la => jsFilter (fun quote => hasMatchingAuthor quote (some la)) validQuotes)
  with
  | none => (none, st)
  | some validQuotes =>
    let validQuotes :=
      match c.tags with
      | none => validQuotes
      | some lt => validQuotes.filter (fun quote => hasMatchingTags quote (some lt))
    if validQuotes.length = 0 then
      (some none, st)
    else
      let validQuotes :=
        match c.minLength with
        | none => validQuotes
        | some m => validQuotes.filter (fun quote => m ≤ quote.length)
      let validQuotes :=
        match c.maxLength with
        | none => validQuotes
        | some m => validQuotes.filter (fun quote => quote.length ≤ m)
      if validQuotes.length = 0 then
        (some none, st)
      else
        let count := min c.count (validQuotes.length : Int)
        let alloc1 := allocArr st validQuotes
        let tempRef := alloc1.1
        let st := alloc1.2
        let res := sampleLoopSt rand 0 count.toNat st tempRef
        (some (some res.1), res.2)

/-- `searchQuotes` on the store model, analogous to `getQuotesSt`. -/
def searchQuotesSt (rand : Nat → Nat) (st : Store) (corpusRef : Nat) (s : SearchCriteria) :
    Option (Option (List Quote)) × Store :=
  let alloc0 := allocArr st (readArr st corpusRef)
  let validRef := alloc0.1
  let st := alloc0.2
  let validQuotes := readArr st validRef
  match
    (if s.authorTerms.length > 0 then
      jsFilter (fun quote => hasPartialAuthorMatch quote (some s.authorTerms)) validQuotes
    else
      some validQuotes)
  with
  | none => (none, st)
  | some validQuotes =>
    let validQuotes :=
      if s.tagTerms.length > 0 then
        validQuotes.filter (fun quote => hasPartialTagMatch quote (some s.tagTerms))
      else
        validQuotes
    if validQuotes.length = 0 then
      (some none, st)
    else
      let validQuotes :=
        match s.minLength with
        | none => validQuotes
        | some m => validQuotes.filter (fun quote => m ≤ quote.length)
      let validQuotes :=
        match s.maxLength with
        | none => validQuotes
        | some m => validQuotes.filter (fun quote => quote.length ≤ m)
      if validQuotes.length = 0 then
        (some none, st)
      else
        let limit := min s.limit (validQuotes.length : Int)
        let alloc1 := allocArr st validQuotes
        let tempRef := alloc1.1
        let st := alloc1.2
        let res := sampleLoopSt rand 0 limit.toNat st tempRef
        (some (some res.1), res.2)

/-! ### Concrete fixtures for witnesses and counterexamples -/

/-- A fixed random stream that always draws index 0. -/
def rand0 : Nat → Nat := fun _ => 0

/-- Fixture: a quote by Alice tagged wisdom and life. -/
def qA : Quote := ⟨"hello", "Alice", ["wisdom", "life"], 5⟩

/-- Fixture: a quote by Mark Twain tagged humor. -/
def qB : Quote := ⟨"world and more", "Mark Twain", ["humor"], 14⟩

/-- Fixture: a quote of length exactly 50. -/
def qC : Quote := ⟨"fifty", "Bob", ["life"], 50⟩

/-! ### Lemmas about the JS iteration combinators -/

theorem jsSome_eq_any {α : Type} {f : α → Option Bool} {g : α → Bool} :
    ∀ {l : List α}, (∀ a ∈ l, f a = some (g a)) → jsSome f l = some (l.any g)
  | [], _ => rfl
  | a :: as, h => by
      have ha : f a = some (g a) := h a (List.mem_cons_self a as)
      have ih := jsSome_eq_any (fun b hb => h b (List.mem_cons_of_mem a hb))
      cases hga : g a <;> simp [jsSome, ha, hga, ih]

theorem jsEvery_eq_all {α : Type} {f : α → Option Bool} {g : α → Bool} :
    ∀ {l : List α}, (∀ a ∈ l, f a = some (g a)) → jsEvery f l = some (l.all g)
  | [], _ => rfl
  | a :: as, h => by
      have ha : f a = some (g a) := h a (List.mem_cons_self a as)
      have ih := jsEvery_eq_all (fun b hb => h b (List.mem_cons_of_mem a hb))
      cases hga : g a <;> simp [jsEvery, ha, hga, ih]

theorem jsFilter_eq_some {α : Type} {f : α → Option Bool} :
    ∀ {l l' : List α}, jsFilter f l = some l' →
      l' = l.filter (fun a => f a == some true)
  | [], l', h => by simpa [jsFilter] using (Option.some.inj h).symm
  | a :: as, l', h => by
      rw [jsFilter] at h
      cases hb : f a with
      | none => rw [hb] at h; exact absurd h (by simp)
      | some b =>
        cases hrest : jsFilter f as with
        | none => rw [hb, hrest] at h; exact absurd h (by simp)
        | some rest =>
          rw [hb, hrest] at h
          have ih := jsFilter_eq_some hrest
          have hl' : l' = if b then a :: rest else rest := by
            cases b <;> simpa using (Option.some.inj h).symm
          cases b <;> simp_all [List.filter_cons]

theorem jsFilter_isSome {α : Type} {f : α → Option Bool} :
    ∀ {l : List α}, (∀ a ∈ l, (f a).isSome) → (jsFilter f l).isSome
  | [], _ => rfl
  | a :: as, h => by
      obtain ⟨b, hb⟩ := Option.isSome_iff_exists.mp (h a (List.mem_cons_self a as))
      have ih := jsFilter_isSome (fun x hx => h x (List.mem_cons_of_mem a hx))
      obtain ⟨rest, hrest⟩ := Option.isSome_iff_exists.mp ih
      simp [jsFilter, hb, hrest]

/-! ### Lemmas about the sampling loop -/

theorem cons_eraseIdx_perm {α : Type} :
    ∀ (l : List α) (i : Nat) (h : i < l.length),
      (l.get ⟨i, h⟩ :: l.eraseIdx i).Perm l
  | _ :: _, 0, _ => by simp
  | a :: as, i + 1, h => by
      have hi : i < as.length := by simpa using h
      have ih := cons_eraseIdx_perm as i hi
      simpa [List.eraseIdx_cons_succ] using
        ((List.Perm.swap a (as.get ⟨i, hi⟩) (as.eraseIdx i)).trans (ih.cons a))

theorem sampleLoop_length_subperm {α : Type} (rand : Nat → Nat) :
    ∀ (k i : Nat) (pool : List α), k ≤ pool.length →
      (sampleLoop rand i k pool).length = k ∧ (sampleLoop rand i k pool).Subperm pool
  | 0, _, pool, _ => ⟨rfl, List.nil_subperm⟩
  | k + 1, i, pool, h => by
      have hpos : 0 < pool.length := Nat.lt_of_lt_of_le (Nat.succ_pos k) h
      have hidx : rand i % pool.length < pool.length := Nat.mod_lt _ hpos
      have hget : pool[rand i % pool.length]? =
          some (pool.get ⟨rand i % pool.length, hidx⟩) := by
        simp [List.getElem?_eq_getElem hidx]
      have hlen : k ≤ (pool.eraseIdx (rand i % pool.length)).length := by
        rw [List.length_eraseIdx_of_lt hidx]
        omega
      have ih := sampleLoop_length_subperm rand k (i + 1)
        (pool.eraseIdx (rand i % pool.length)) hlen
      rw [sampleLoop, hget]
      refine ⟨by simpa using ih.1, ?_⟩
      exact ((List.subperm_cons _).mpr ih.2).trans
        (cons_eraseIdx_perm pool _ hidx).subperm

theorem jsSome_isSome {α : Type} {f : α → Option Bool} :
    ∀ {l : List α}, (∀ a ∈ l, (f a).isSome) → (jsSome f l).isSome
  | [], _ => rfl
  | a :: as, h => by
      obtain ⟨b, hb⟩ := Option.isSome_iff_exists.mp (h a (List.mem_cons_self a as))
      have ih := jsSome_isSome (fun x hx => h x (List.mem_cons_of_mem a hx))
      cases b <;> simp [jsSome, hb, ih]

theorem jsEvery_isSome {α : Type} {f : α → Option Bool} :
    ∀ {l : List α}, (∀ a ∈ l, (f a).isSome) → (jsEvery f l).isSome
  | [], _ => rfl
  | a :: as, h => by
      obtain ⟨b, hb⟩ := Option.isSome_iff_exists.mp (h a (List.mem_cons_self a as))
      have ih := jsEvery_isSome (fun x hx => h x (List.mem_cons_of_mem a hx))
      cases b <;> simp [jsEvery, hb, ih]

/-! ### Lemmas about the matching predicates -/

theorem hasMatchingAuthor_eq_pure (q : Quote) (la : List String)
    (hq : (normalizeAuthorName q.author).isSome)
    (hl : ∀ a ∈ la, (normalizeAuthorName a).isSome) :
    hasMatchingAuthor q (some la) =
      some (la.any fun a => normalizeAuthorName a == normalizeAuthorName q.author) := by
  obtain ⟨qa, hqa⟩ := Option.isSome_iff_exists.mp hq
  have step : ∀ a ∈ la,
      ((normalizeAuthorName a).bind fun na => some (na == qa)) =
        some (normalizeAuthorName a == some qa) := by
    intro a ha
    obtain ⟨na, hna⟩ := Option.isSome_iff_exists.mp (hl a ha)
    rw [hna]
    rfl
  rw [hqa]
  simp only [hasMatchingAuthor, hqa, Option.some_bind]
  exact jsSome_eq_any step

theorem hasMatchingAuthor_isSome (q : Quote) (la : List String)
    (hq : (normalizeAuthorName q.author).isSome)
    (hl : ∀ a ∈ la, (normalizeAuthorName a).isSome) :
    (hasMatchingAuthor q (some la)).isSome := by
  rw [hasMatchingAuthor_eq_pure q la hq hl]
  rfl

theorem hasPartialAuthorMatch_eq_pure (q : Quote) (ts : List String) (qa : String)
    (hqa : normalizeAuthorName q.author = some qa)
    (hl : ∀ t ∈ ts, (normalizeAuthorName t).isSome) :
    hasPartialAuthorMatch q (some ts) =
      some (ts.all fun t => jsIncludes qa ((normalizeAuthorName t).getD "")) := by
  match ts with
  | [] => rfl
  | t0 :: ts' =>
    have step : ∀ t ∈ t0 :: ts',
        ((normalizeAuthorName t).bind fun nt => some (jsIncludes qa nt)) =
          some (jsIncludes qa ((normalizeAuthorName t).getD "")) := by
      intro t ht
      obtain ⟨nt, hnt⟩ := Option.isSome_iff_exists.mp (hl t ht)
      rw [hnt]
      rfl
    simp only [hasPartialAuthorMatch, List.length_cons, hqa, Option.some_bind,
      if_neg (Nat.succ_ne_zero ts'.length)]
    exact jsEvery_eq_all step

theorem hasPartialAuthorMatch_isSome (q : Quote) (ts : List String)
    (hq : (normalizeAuthorName q.author).isSome)
    (hl : ∀ t ∈ ts, (normalizeAuthorName t).isSome) :
    (hasPartialAuthorMatch q (some ts)).isSome := by
  obtain ⟨qa, hqa⟩ := Option.isSome_iff_exists.mp hq
  rw [hasPartialAuthorMatch_eq_pure q ts qa hqa hl]
  rfl

/-! ### Structural lemmas about the matchers -/

theorem getQuotes_via_candidates (qd : List Quote) (rand : Nat → Nat) (c : GetCriteria) :
    getQuotes qd rand c = (getQuotesCandidates qd c).bind (fun cands =>
      some (if cands.length = 0 then none
            else some (sampleLoop rand 0 (min c.count (cands.length : Int)).toNat cands))) := by
  obtain ⟨mx, mn, tg, cnt, au⟩ := c
  cases au with
  | none =>
      simp only [getQuotes, getQuotesCandidates, Option.some_bind]
      split
      next h2 =>
        rw [List.length_eq_zero.mp h2]
        cases mn <;> cases mx <;> rfl
      next h2 =>
        split
        all_goals rfl
  | some la =>
      simp only [getQuotes, getQuotesCandidates]
      cases hjs : jsFilter (fun quote => hasMatchingAuthor quote (some la)) qd with
      | none => simp [hjs]
      | some v1 =>
          simp only [hjs, Option.some_bind]
          split
          next h2 =>
            rw [List.length_eq_zero.mp h2]
            cases mn <;> cases mx <;> rfl
          next h2 =>
            split
            all_goals rfl

theorem searchQuotes_via_candidates (qd : List Quote) (rand : Nat → Nat) (s : SearchCriteria) :
    searchQuotes qd rand s = (searchQuotesCandidates qd s).bind (fun cands =>
      some (if cands.length = 0 then none
            else some (sampleLoop rand 0 (min s.limit (cands.length : Int)).toNat cands))) := by
  obtain ⟨mx, mn, tt, lim, ath⟩ := s
  simp only [searchQuotes, searchQuotesCandidates]
  by_cases hat : ath.length > 0
  · simp only [if_pos hat]
    cases hjs : jsFilter (fun quote => hasPartialAuthorMatch quote (some ath)) qd with
    | none => simp [hjs]
    | some v1 =>
        simp only [hjs, Option.some_bind]
        by_cases htt : tt.length > 0
        · simp only [if_pos htt]
          split
          next h2 =>
            rw [List.length_eq_zero.mp h2]
            cases mn <;> cases mx <;> rfl
          next h2 =>
            split
            all_goals rfl
        · simp only [if_neg htt]
          split
          next h2 =>
            rw [List.length_eq_zero.mp h2]
            cases mn <;> cases mx <;> rfl
          next h2 =>
            split
            all_goals rfl
  · simp only [if_neg hat, Option.some_bind]
    by_cases htt : tt.length > 0
    · simp only [if_pos htt]
      split
      next h2 =>
        rw [List.length_eq_zero.mp h2]
        cases mn <;> cases mx <;> rfl
      next h2 =>
        split
        all_goals rfl
    · simp only [if_neg htt]
      split
      next h2 =>
        rw [List.length_eq_zero.mp h2]
        cases mn <;> cases mx <;> rfl
      next h2 =>
        split
        all_goals rfl

theorem getQuotesCandidates_eq_filter {qd : List Quote} {c : GetCriteria}
    {cands : List Quote} (h : getQuotesCandidates qd c = some cands) :
    cands = qd.filter (fun q => matchesAllGet c q) := by
  obtain ⟨mx, mn, tg, cnt, au⟩ := c
  cases au with
  | none =>
      simp only [getQuotesCandidates, Option.some_bind, Option.some.injEq] at h
      subst h
      cases tg <;> cases mn <;> cases mx <;>
        simp [matchesAllGet, minLengthOk, maxLengthOk, hasMatchingTags,
          hasMatchingAuthor, List.filter_filter, Bool.and_assoc, List.filter_true]
  | some la =>
      simp only [getQuotesCandidates] at h
      cases hjs : jsFilter (fun quote => hasMatchingAuthor quote (some la)) qd with
      | none => rw [hjs] at h; exact absurd h (by simp)
      | some v1 =>
          rw [hjs, Option.some_bind, Option.some.injEq] at h
          subst h
          have hv1 := jsFilter_eq_some hjs
          subst hv1
          cases tg <;> cases mn <;> cases mx <;>
            simp [matchesAllGet, minLengthOk, maxLengthOk, hasMatchingTags,
              List.filter_filter, Bool.and_assoc]

theorem searchQuotesCandidates_eq_filter {qd : List Quote} {s : SearchCriteria}
    {cands : List Quote} (h : searchQuotesCandidates qd s = some cands) :
    cands = qd.filter (fun q => matchesAllSearch s q) := by
  obtain ⟨mx, mn, tt, lim, ath⟩ := s
  by_cases hat : ath.length > 0
  · simp only [searchQuotesCandidates, if_pos hat] at h
    cases hjs : jsFilter (fun quote => hasPartialAuthorMatch quote (some ath)) qd with
    | none => rw [hjs] at h; exact absurd h (by simp)
    | some v1 =>
        rw [hjs, Option.some_bind, Option.some.injEq] at h
        subst h
        have hv1 := jsFilter_eq_some hjs
        subst hv1
        by_cases htt : tt.length > 0
        · simp only [if_pos htt]
          cases mn <;> cases mx <;>
            simp [matchesAllSearch, minLengthOk, maxLengthOk, hasPartialTagMatch,
              Nat.pos_iff_ne_zero.mp htt, List.filter_filter, Bool.and_assoc]
        · simp only [if_neg htt]
          have htt0 : tt.length = 0 := Nat.eq_zero_of_not_pos htt
          cases mn <;> cases mx <;>
            simp [matchesAllSearch, minLengthOk, maxLengthOk, hasPartialTagMatch,
              htt0, List.filter_filter, Bool.and_assoc]
  · simp only [searchQuotesCandidates, if_neg hat, Option.some_bind,
      Option.some.injEq] at h
    subst h
    have hat0 : ath.length = 0 := Nat.eq_zero_of_not_pos hat
    have hath : ath = [] := List.length_eq_zero.mp hat0
    subst hath
    by_cases htt : tt.length > 0
    · simp only [if_pos htt]
      cases mn <;> cases mx <;>
        simp [matchesAllSearch, minLengthOk, maxLengthOk, hasPartialTagMatch,
          hasPartialAuthorMatch, Nat.pos_iff_ne_zero.mp htt,
          List.filter_filter, Bool.and_assoc]
    · simp only [if_neg htt]
      have htt0 : tt.length = 0 := Nat.eq_zero_of_not_pos htt
      have httn : tt = [] := List.length_eq_zero.mp htt0
      subst httn
      cases mn <;> cases mx <;>
        simp [matchesAllSearch, minLengthOk, maxLengthOk, hasPartialTagMatch,
          hasPartialAuthorMatch, List.filter_filter, Bool.and_assoc, List.filter_true]

theorem getQuotesCandidates_isSome (qd : List Quote) (c : GetCriteria)
    (hq : ∀ q ∈ qd, (normalizeAuthorName q.author).isSome)
    (ha : ∀ la, c.authors = some la → ∀ a ∈ la, (normalizeAuthorName a).isSome) :
    (getQuotesCandidates qd c).isSome := by
  obtain ⟨mx, mn, tg, cnt, au⟩ := c
  cases au with
  | none => simp [getQuotesCandidates]
  | some la =>
      have hf : ∀ q ∈ qd, ((fun quote => hasMatchingAuthor quote (some la)) q).isSome := by
        intro q hqmem
        exact hasMatchingAuthor_isSome q la (hq q hqmem) (ha la rfl)
      obtain ⟨v1, hv1⟩ := Option.isSome_iff_exists.mp (jsFilter_isSome hf)
      simp [getQuotesCandidates, hv1]

theorem searchQuotesCandidates_isSome (qd : List Quote) (s : SearchCriteria)
    (hq : ∀ q ∈ qd, (normalizeAuthorName q.author).isSome)
    (ha : ∀ t ∈ s.authorTerms, (normalizeAuthorName t).isSome) :
    (searchQuotesCandidates qd s).isSome := by
  obtain ⟨mx, mn, tt, lim, ath⟩ := s
  by_cases hat : ath.length > 0
  · have hf : ∀ q ∈ qd,
        ((fun quote => hasPartialAuthorMatch quote (some ath)) q).isSome := by
      intro q hqmem
      exact hasPartialAuthorMatch_isSome q ath (hq q hqmem) ha
    obtain ⟨v1, hv1⟩ := Option.isSome_iff_exists.mp (jsFilter_isSome hf)
    simp [searchQuotesCandidates, if_pos hat, hv1]
  · simp [searchQuotesCandidates, if_neg hat]

theorem getQuotes_eq_some {qd : List Quote} {rand : Nat → Nat} {c : GetCriteria}
    {r : Option (List Quote)} (h : getQuotes qd rand c = some r) :
    r = if (qd.filter (fun q => matchesAllGet c q)).length = 0 then none
        else some (sampleLoop rand 0
          (min c.count ((qd.filter (fun q => matchesAllGet c q)).length : Int)).toNat
          (qd.filter (fun q => matchesAllGet c q))) := by
  rw [getQuotes_via_candidates] at h
  cases hc : getQuotesCandidates qd c with
  | none => rw [hc] at h; exact absurd h (by simp)
  | some cands =>
      rw [hc, Option.some_bind] at h
      have he := getQuotesCandidates_eq_filter hc
      subst he
      exact (Option.some.inj h).symm

theorem searchQuotes_eq_some {qd : List Quote} {rand : Nat → Nat} {s : SearchCriteria}
    {r : Option (List Quote)} (h : searchQuotes qd rand s = some r) :
    r = if (qd.filter (fun q => matchesAllSearch s q)).length = 0 then none
        else some (sampleLoop rand 0
          (min s.limit ((qd.filter (fun q => matchesAllSearch s q)).length : Int)).toNat
          (qd.filter (fun q => matchesAllSearch s q))) := by
  rw [searchQuotes_via_candidates] at h
  cases hc : searchQuotesCandidates qd s with
  | none => rw [hc] at h; exact absurd h (by simp)
  | some cands =>
      rw [hc, Option.some_bind] at h
      have he := searchQuotesCandidates_eq_filter hc
      subst he
      exact (Option.some.inj h).symm

theorem getQuotes_isSome (qd : List Quote) (rand : Nat → Nat) (c : GetCriteria)
    (hq : ∀ q ∈ qd, (normalizeAuthorName q.author).isSome)
    (ha : ∀ la, c.authors = some la → ∀ a ∈ la, (normalizeAuthorName a).isSome) :
    (getQuotes qd rand c).isSome := by
  rw [getQuotes_via_candidates]
  obtain ⟨cands, hc⟩ :=
    Option.isSome_iff_exists.mp (getQuotesCandidates_isSome qd c hq ha)
  simp [hc]

theorem searchQuotes_isSome (qd : List Quote) (rand : Nat → Nat) (s : SearchCriteria)
    (hq : ∀ q ∈ qd, (normalizeAuthorName q.author).isSome)
    (ha : ∀ t ∈ s.authorTerms, (normalizeAuthorName t).isSome) :
    (searchQuotes qd rand s).isSome := by
  rw [searchQuotes_via_candidates]
  obtain ⟨cands, hc⟩ :=
    Option.isSome_iff_exists.mp (searchQuotesCandidates_isSome qd s hq ha)
  simp [hc]

/-! ### Order-independence of filters -/

theorem applyFilters_perm {ps qs : List (Quote → Bool)} (h : ps.Perm qs) :
    ∀ l : List Quote, applyFilters l ps = applyFilters l qs := by
  induction h with
  | nil => intro l; rfl
  | cons p _ ih =>
      intro l
      simpa [applyFilters] using ih (l.filter p)
  | swap p q l' =>
      intro l
      simp [applyFilters, List.filter_filter, Bool.and_comm]
  | trans _ _ ih1 ih2 =>
      intro l
      rw [ih1 l, ih2 l]

/-! ### Store-preservation lemmas -/

theorem sampleLoopSt_preserves (rand : Nat → Nat) :
    ∀ (k i : Nat) (st : Store) (tempRef r : Nat), r ≠ tempRef →
      ((sampleLoopSt rand i k st tempRef).2)[r]? = st[r]?
  | 0, _, _, _, _, _ => rfl
  | k + 1, i, st, tempRef, r, hne => by
      rw [sampleLoopSt]
      cases hget : (readArr st tempRef)[rand i % (readArr st tempRef).length]? with
      | none => rfl
      | some q =>
          have ih := sampleLoopSt_preserves rand k (i + 1)
            (writeArr st tempRef
              ((readArr st tempRef).eraseIdx (rand i % (readArr st tempRef).length)))
            tempRef r hne
          simp only [hget]
          rw [ih]
          simp [writeArr, List.getElem?_set_ne (Ne.symm hne)]

theorem sampleLoopSt_snd_preserves (rand : Nat → Nat) {k i : Nat} {base : Store}
    {tempRef : Nat} {quotes : List Quote} {st2 : Store}
    (hrec : sampleLoopSt rand i k base tempRef = (quotes, st2))
    (r : Nat) (hne : r ≠ tempRef) :
    st2[r]? = base[r]? := by
  have h := sampleLoopSt_preserves rand k i base tempRef r hne
  rw [hrec] at h
  exact h

theorem getQuotesSt_preserves (rand : Nat → Nat) (st : Store) (corpusRef : Nat)
    (c : GetCriteria) (hr : corpusRef < st.length) :
    ((getQuotesSt rand st corpusRef c).2)[corpusRef]? = st[corpusRef]? := by
  obtain ⟨mx, mn, tg, cnt, au⟩ := c
  have hap : (st ++ [readArr st corpusRef])[corpusRef]? = st[corpusRef]? :=
    List.getElem?_append_left hr
  simp only [getQuotesSt, allocArr]
  cases au <;> cases tg <;> cases mn <;> cases mx <;>
    (repeat' split) <;>
    first
      | exact hap
      | (refine (sampleLoopSt_preserves rand _ _ _ _ corpusRef ?hne).trans ?rest
         case hne =>
           simp only [List.length_append, List.length_cons, List.length_nil]
           omega
         case rest =>
           rw [List.getElem?_append_left
             (by simp only [List.length_append, List.length_cons, List.length_nil]; omega)]
           exact hap)

theorem searchQuotesSt_preserves (rand : Nat → Nat) (st : Store) (corpusRef : Nat)
    (s : SearchCriteria) (hr : corpusRef < st.length) :
    ((searchQuotesSt rand st corpusRef s).2)[corpusRef]? = st[corpusRef]? := by
  obtain ⟨mx, mn, tt, lim, ath⟩ := s
  have hap : (st ++ [readArr st corpusRef])[corpusRef]? = st[corpusRef]? :=
    List.getElem?_append_left hr
  simp only [searchQuotesSt, allocArr]
  cases mn <;> cases mx <;>
    (repeat' split) <;>
    first
      | exact hap
      | (refine (sampleLoopSt_preserves rand _ _ _ _ corpusRef ?hne).trans ?rest
         case hne =>
           simp only [List.length_append, List.length_cons, List.length_nil]
           omega
         case rest =>
           rw [List.getElem?_append_left
             (by simp only [List.length_append, List.length_cons, List.length_nil]; omega)]
           exact hap)

/-! ### Claim theorems -/

/-- C3: for every quote and non-empty list of requested tags, the exact
tag predicate `hasMatchingTags` is true iff every requested tag is a
member of the quote's stored tag list, membership being exact,
case-sensitive string equality (AND semantics across requested tags). -/
theorem c3_hasMatchingTags_iff (q : Quote) (lt : List String) (hne : lt ≠ []) :
    hasMatchingTags q (some lt) = true ↔ ∀ t ∈ lt, t ∈ q.tags := by
  simp [hasMatchingTags]

/-- C3 witness: instantiation at a quote tagged wisdom and life. -/
theorem c3_hasMatchingTags_iff_witness :
    ((["wisdom", "life"] : List String) ≠ []) ∧
    (hasMatchingTags qA (some ["wisdom", "life"]) = true ↔
      ∀ t ∈ (["wisdom", "life"] : List String), t ∈ qA.tags) :=
  ⟨by decide, c3_hasMatchingTags_iff qA ["wisdom", "life"] (by decide)⟩

/-- C7: every run of the sampling loop shared by `getQuotes` and
`searchQuotes`, entered (as in both callers) with `k` at most the pool
size, returns exactly `k` elements forming a sub-permutation of the pool,
so they come from `k` distinct positions with no element re-drawn; and
each draw removes the drawn element from the working copy, shrinking the
remaining population by exactly one. -/
theorem c7_sampler_without_replacement (rand : Nat → Nat) (k : Nat)
    (pool : List Quote) (h : k ≤ pool.length) :
    (sampleLoop rand 0 k pool).length = k ∧
    (sampleLoop rand 0 k pool).Subperm pool ∧
    (∀ (i j : Nat) (temp : List Quote), temp ≠ [] →
      ∃ drawn, temp[rand i % temp.length]? = some drawn ∧
        sampleLoop rand i (j + 1) temp =
          drawn :: sampleLoop rand (i + 1) j (temp.eraseIdx (rand i % temp.length)) ∧
        (temp.eraseIdx (rand i % temp.length)).length + 1 = temp.length) := by
  refine ⟨(sampleLoop_length_subperm rand k 0 pool h).1,
    (sampleLoop_length_subperm rand k 0 pool h).2, ?_⟩
  intro i j temp hne
  have hpos : 0 < temp.length := List.length_pos.mpr hne
  have hidx : rand i % temp.length < temp.length := Nat.mod_lt _ hpos
  refine ⟨temp.get ⟨rand i % temp.length, hidx⟩, ?_, ?_, ?_⟩
  · simp [List.getElem?_eq_getElem hidx]
  · rw [sampleLoop]
    rw [show temp[rand i % temp.length]? = some (temp.get ⟨rand i % temp.length, hidx⟩) by
      simp [List.getElem?_eq_getElem hidx]]
  · rw [List.length_eraseIdx_of_lt hidx]
    omega

/-- C7 witness: two draws from a two-element pool. -/
theorem c7_sampler_without_replacement_witness :
    2 ≤ ([qA, qB] : List Quote).length ∧
    ((sampleLoop rand0 0 2 [qA, qB]).length = 2 ∧
      (sampleLoop rand0 0 2 [qA, qB]).Subperm [qA, qB] ∧
      (∀ (i j : Nat) (temp : List Quote), temp ≠ [] →
        ∃ drawn, temp[rand0 i % temp.length]? = some drawn ∧
          sampleLoop rand0 i (j + 1) temp =
            drawn :: sampleLoop rand0 (i + 1) j (temp.eraseIdx (rand0 i % temp.length)) ∧
          (temp.eraseIdx (rand0 i % temp.length)).length + 1 = temp.length)) :=
  ⟨by decide, c7_sampler_without_replacement rand0 2 [qA, qB] (by decide)⟩

/-- C2: for every quote and non-empty requested author list whose strings
all percent-decode, `hasMatchingAuthor` returns true iff the quote's
author, after normalization (percent-decode, trim, lowercase), equals the
normalized form of at least one requested author (OR semantics); in
particular the percent-encoded, mixed-case request "mark%20twain" matches
the stored author "Mark Twain". -/
theorem c2_hasMatchingAuthor_iff (q : Quote) (la : List String) (hne : la ≠ [])
    (hq : (normalizeAuthorName q.author).isSome)
    (hl : ∀ a ∈ la, (normalizeAuthorName a).isSome) :
    (hasMatchingAuthor q (some la) = some true ↔
      ∃ a ∈ la, normalizeAuthorName a = normalizeAuthorName q.author) ∧
    hasMatchingAuthor (Quote.mk "t" "Mark Twain" [] 9) (some ["mark%20twain"]) =
      some true := by
  refine ⟨?_, by decide⟩
  rw [hasMatchingAuthor_eq_pure q la hq hl]
  simp [List.any_eq_true]

/-- C2 witness: instantiation at the stored author "Mark Twain" and the
request "mark%20twain". -/
theorem c2_hasMatchingAuthor_iff_witness :
    ((["mark%20twain"] : List String) ≠ []) ∧
    (normalizeAuthorName (Quote.mk "t" "Mark Twain" [] 9).author).isSome ∧
    (∀ a ∈ (["mark%20twain"] : List String), (normalizeAuthorName a).isSome) ∧
    ((hasMatchingAuthor (Quote.mk "t" "Mark Twain" [] 9) (some ["mark%20twain"]) =
        some true ↔
      ∃ a ∈ (["mark%20twain"] : List String),
        normalizeAuthorName a =
          normalizeAuthorName (Quote.mk "t" "Mark Twain" [] 9).author) ∧
      hasMatchingAuthor (Quote.mk "t" "Mark Twain" [] 9) (some ["mark%20twain"]) =
        some true) :=
  ⟨by decide, by decide, by decide,
    c2_hasMatchingAuthor_iff (Quote.mk "t" "Mark Twain" [] 9) ["mark%20twain"]
      (by decide) (by decide) (by decide)⟩

/-- C4: `hasPartialTagMatch` is true iff every term is a case-insensitive
substring (lowercase containment) of at least one of the quote's tags
(AND across terms, OR across tags per term); and, when the author strings
percent-decode, `hasPartialAuthorMatch` returns true iff every term,
after normalization, is a substring of the normalized author name (AND
across terms). -/
theorem c4_partial_predicates_iff (q : Quote) (ts us : List String) (qa : String)
    (hqa : normalizeAuthorName q.author = some qa)
    (hus : ∀ u ∈ us, (normalizeAuthorName u).isSome) :
    (hasPartialTagMatch q (some ts) = true ↔
      ∀ t ∈ ts, ∃ tag ∈ q.tags, jsIncludes (jsToLower tag) (jsToLower t) = true) ∧
    (hasPartialAuthorMatch q (some us) = some true ↔
      ∀ u ∈ us, ∃ nu, normalizeAuthorName u = some nu ∧ jsIncludes qa nu = true) := by
  constructor
  · cases ts with
    | nil => simp [hasPartialTagMatch]
    | cons t0 ts' =>
        simp only [hasPartialTagMatch, List.length_cons,
          if_neg (Nat.succ_ne_zero ts'.length)]
        simp [List.all_eq_true, List.any_eq_true]
  · rw [hasPartialAuthorMatch_eq_pure q us qa hqa hus]
    simp only [Option.some.injEq, List.all_eq_true]
    constructor
    · intro h u hu
      obtain ⟨nu, hnu⟩ := Option.isSome_iff_exists.mp (hus u hu)
      refine ⟨nu, hnu, ?_⟩
      have := h u hu
      rwa [hnu, Option.getD_some] at this
    · intro h u hu
      obtain ⟨nu, hnu, hinc⟩ := h u hu
      rw [hnu, Option.getD_some]
      exact hinc

/-- C4 witness: the spec's example, tag terms love and life against a
quote tagged tough-love and lifestyle, and one author term. -/
theorem c4_partial_predicates_iff_witness :
    normalizeAuthorName (Quote.mk "t" "Mark Twain" ["tough-love", "lifestyle"] 9).author =
      some "mark twain" ∧
    (∀ u ∈ (["Twain"] : List String), (normalizeAuthorName u).isSome) ∧
    ((hasPartialTagMatch (Quote.mk "t" "Mark Twain" ["tough-love", "lifestyle"] 9)
        (some ["love", "life"]) = true ↔
      ∀ t ∈ (["love", "life"] : List String),
        ∃ tag ∈ (Quote.mk "t" "Mark Twain" ["tough-love", "lifestyle"] 9).tags,
          jsIncludes (jsToLower tag) (jsToLower t) = true) ∧
     (hasPartialAuthorMatch (Quote.mk "t" "Mark Twain" ["tough-love", "lifestyle"] 9)
        (some ["Twain"]) = some true ↔
      ∀ u ∈ (["Twain"] : List String),
        ∃ nu, normalizeAuthorName u = some nu ∧ jsIncludes "mark twain" nu = true)) :=
  ⟨by decide, by decide,
    c4_partial_predicates_iff (Quote.mk "t" "Mark Twain" ["tough-love", "lifestyle"] 9)
      ["love", "life"] ["Twain"] "mark twain" (by decide) (by decide)⟩

/-- C1 counterexample: on a one-quote corpus, `getQuotes` with
`authors := some []` returns NoMatch (`some none`), while the absent
author filter returns the quote — the empty author array is treated as
"match nothing", not as vacuously true, because the JS guard
`if (authors)` is truthy for `[]` and `[].some(...)` is false. -/
theorem c1_empty_authors_counterexample :
    getQuotes [qA] rand0 ⟨none, none, none, 1, some []⟩ = some none ∧
    getQuotes [qA] rand0 ⟨none, none, none, 1, none⟩ = some (some [qA]) := by
  constructor
  · decide
  · decide

/-- C1 amended: an absent (null) filter is vacuously true for all four
predicates and an empty term array is vacuously true for the two partial
predicates; `getQuotes` with an empty tag array behaves exactly like the
absent tag filter, and `searchQuotes` with empty term arrays equals
`getQuotes` with absent filters; but `getQuotes` with an empty author
array matches nothing and returns NoMatch (for corpora whose author
strings percent-decode). -/
theorem c1_amended :
    (∀ q : Quote,
      hasMatchingAuthor q none = some true ∧
      hasMatchingTags q none = true ∧
      hasPartialAuthorMatch q none = some true ∧
      hasPartialTagMatch q none = true ∧
      hasPartialAuthorMatch q (some []) = some true ∧
      hasPartialTagMatch q (some []) = true) ∧
    (∀ (qd : List Quote) (rand : Nat → Nat) (mx mn : Option Int) (cnt : Int)
       (au : Option (List String)),
      getQuotes qd rand ⟨mx, mn, some [], cnt, au⟩ =
        getQuotes qd rand ⟨mx, mn, none, cnt, au⟩) ∧
    (∀ (qd : List Quote) (rand : Nat → Nat) (mx mn : Option Int) (lim : Int),
      searchQuotes qd rand ⟨mx, mn, [], lim, []⟩ =
        getQuotes qd rand ⟨mx, mn, none, lim, none⟩) ∧
    (∀ (qd : List Quote) (rand : Nat → Nat) (mx mn : Option Int)
       (tg : Option (List String)) (cnt : Int),
      (∀ q ∈ qd, (normalizeAuthorName q.author).isSome) →
      getQuotes qd rand ⟨mx, mn, tg, cnt, some []⟩ = some none) := by
  refine ⟨fun q => ⟨rfl, rfl, rfl, rfl, rfl, rfl⟩, ?_, ?_, ?_⟩
  · intro qd rand mx mn cnt au
    have hfil : ∀ l : List Quote,
        l.filter (fun quote => hasMatchingTags quote (some [])) = l := by
      intro l
      simp [hasMatchingTags]
    simp only [getQuotes]
    cases au with
    | none =>
        simp only [Option.some_bind]
        rw [hfil]
    | some la =>
        cases hjs : jsFilter (fun quote => hasMatchingAuthor quote (some la)) qd with
        | none => simp [hjs]
        | some v1 =>
            simp only [hjs, Option.some_bind]
            rw [hfil]
  · intro qd rand mx mn lim
    rfl
  · intro qd rand mx mn tg cnt hq
    have hf : ∀ q ∈ qd,
        (fun quote => hasMatchingAuthor quote (some [])) q = some false := by
      intro q hqm
      obtain ⟨qa, hqa⟩ := Option.isSome_iff_exists.mp (hq q hqm)
      simp [hasMatchingAuthor, hqa, jsSome]
    obtain ⟨v1, hv1⟩ := Option.isSome_iff_exists.mp
      (@jsFilter_isSome Quote (fun quote => hasMatchingAuthor quote (some [])) qd
        (fun a ha => by rw [hf a ha]; rfl))
    have hv1nil : v1 = [] := by
      rw [jsFilter_eq_some hv1]
      exact List.filter_eq_nil_iff.mpr (fun a ha => by simp [hf a ha])
    subst hv1nil
    simp only [getQuotes, hv1, Option.some_bind]
    cases tg <;> rfl

/-- C1 witness: the amended empty-author clause applied to a one-quote
corpus. -/
theorem c1_amended_witness :
    (∀ q ∈ [qA], (normalizeAuthorName q.author).isSome) ∧
    getQuotes [qA] rand0 ⟨none, none, none, 1, some []⟩ = some none :=
  ⟨by decide, c1_amended.2.2.2 [qA] rand0 none none none 1 (by decide)⟩

theorem result_shape_noMatch_nonempty {qd : List Quote} {rand : Nat → Nat} {cnt : Int}
    {p : Quote → Bool} {r : Option (List Quote)}
    (he : r = if (qd.filter p).length = 0 then none
          else some (sampleLoop rand 0 (min cnt ((qd.filter p).length : Int)).toNat
            (qd.filter p)))
    (hcnt : 1 ≤ cnt) :
    (r = none ↔ ∀ q ∈ qd, ¬ p q = true) ∧ ∀ qs, r = some qs → qs ≠ [] := by
  by_cases h0 : (qd.filter p).length = 0
  · rw [if_pos h0] at he
    subst he
    refine ⟨⟨fun _ q hqm hmat => ?_, fun _ => rfl⟩, fun qs hqs => absurd hqs (by simp)⟩
    have hmem : q ∈ qd.filter p := List.mem_filter.mpr ⟨hqm, hmat⟩
    rw [List.length_eq_zero.mp h0] at hmem
    exact absurd hmem (List.not_mem_nil q)
  · rw [if_neg h0] at he
    subst he
    have hlen1 : 1 ≤ (qd.filter p).length := Nat.one_le_iff_ne_zero.mpr h0
    have hkle : (min cnt ((qd.filter p).length : Int)).toNat ≤ (qd.filter p).length :=
      Int.toNat_le.mpr (min_le_right _ _)
    have hmin1 : (1 : Int) ≤ min cnt ((qd.filter p).length : Int) :=
      le_min hcnt (by exact_mod_cast hlen1)
    have hk1 : 1 ≤ (min cnt ((qd.filter p).length : Int)).toNat :=
      Int.lt_toNat.mpr (by exact_mod_cast hmin1)
    constructor
    · constructor
      · intro h
        exact absurd h (by simp)
      · intro hall
        exfalso
        obtain ⟨q, hqm⟩ := @List.exists_mem_of_length_pos Quote (qd.filter p) (by omega)
        have hm := List.mem_filter.mp hqm
        exact hall q hm.1 hm.2
    · intro qs hqs
      have hqseq := (Option.some.inj hqs).symm
      have hls := (sampleLoop_length_subperm rand _ 0 _ hkle).1
      intro hnil
      rw [← hqseq, hnil] at hls
      simp at hls
      omega

/-- C5 counterexample: a requested author consisting of a lone percent
sign is a malformed escape, so `getQuotes` with count 1 propagates the
`URIError` (the embedded error value `none`) instead of returning a
value — it does throw for this criteria. -/
theorem c5_malformed_author_throws :
    getQuotes [qA] rand0 ⟨none, none, none, 1, some ["%"]⟩ = none := by decide

/-- C5 amended: when every corpus author string and every requested
author string or term percent-decodes, `getQuotes` with count ≥ 1 never
throws, returns NoMatch (null) iff no corpus quote satisfies all the
author, tag and inclusive length filters, and otherwise returns a
non-empty list; the same holds for `searchQuotes` with limit ≥ 1 and its
partial predicates.  (Malformed escapes propagate as errors, per the
spec's normalization contract.) -/
theorem c5_amended (qd : List Quote) (rand : Nat → Nat) (c : GetCriteria)
    (s : SearchCriteria)
    (hq : ∀ q ∈ qd, (normalizeAuthorName q.author).isSome)
    (ha : ∀ la, c.authors = some la → ∀ a ∈ la, (normalizeAuthorName a).isSome)
    (hs : ∀ t ∈ s.authorTerms, (normalizeAuthorName t).isSome)
    (hcnt : 1 ≤ c.count) (hlim : 1 ≤ s.limit) :
    (∃ r, getQuotes qd rand c = some r ∧
      (r = none ↔ ∀ q ∈ qd, ¬ matchesAllGet c q = true) ∧
      (∀ qs, r = some qs → qs ≠ [])) ∧
    (∃ r, searchQuotes qd rand s = some r ∧
      (r = none ↔ ∀ q ∈ qd, ¬ matchesAllSearch s q = true) ∧
      (∀ qs, r = some qs → qs ≠ [])) := by
  constructor
  · obtain ⟨r, hr⟩ := Option.isSome_iff_exists.mp (getQuotes_isSome qd rand c hq ha)
    have hshape := result_shape_noMatch_nonempty (getQuotes_eq_some hr) hcnt
    exact ⟨r, hr, hshape.1, hshape.2⟩
  · obtain ⟨r, hr⟩ := Option.isSome_iff_exists.mp (searchQuotes_isSome qd rand s hq hs)
    have hshape := result_shape_noMatch_nonempty (searchQuotes_eq_some hr) hlim
    exact ⟨r, hr, hshape.1, hshape.2⟩

/-- C5 witness: the amended claim applied to a one-quote corpus with
count 1 and limit 1. -/
theorem c5_amended_witness :
    (∀ q ∈ [qA], (normalizeAuthorName q.author).isSome) ∧
    (∀ la, (⟨none, none, none, 1, none⟩ : GetCriteria).authors = some la →
      ∀ a ∈ la, (normalizeAuthorName a).isSome) ∧
    (∀ t ∈ (⟨none, none, [], 1, []⟩ : SearchCriteria).authorTerms,
      (normalizeAuthorName t).isSome) ∧
    (1 : Int) ≤ 1 ∧
    ((∃ r, getQuotes [qA] rand0 ⟨none, none, none, 1, none⟩ = some r ∧
      (r = none ↔ ∀ q ∈ [qA], ¬ matchesAllGet ⟨none, none, none, 1, none⟩ q = true) ∧
      (∀ qs, r = some qs → qs ≠ [])) ∧
    (∃ r, searchQuotes [qA] rand0 ⟨none, none, [], 1, []⟩ = some r ∧
      (r = none ↔ ∀ q ∈ [qA], ¬ matchesAllSearch ⟨none, none, [], 1, []⟩ q = true) ∧
      (∀ qs, r = some qs → qs ≠ []))) :=
  ⟨by decide, by intro la h; simp at h, by decide, by decide,
    c5_amended [qA] rand0 ⟨none, none, none, 1, none⟩ ⟨none, none, [], 1, []⟩
      (by decide) (by intro la h; simp at h) (by decide) (by decide) (by decide)⟩

/-- C6 counterexample: with count = -1 against a corpus whose single
quote matches (M = 1), `getQuotes` returns the empty list — 0 elements,
not min(count, M) = -1 elements. -/
theorem c6_negative_count_counterexample :
    getQuotes [qA] rand0 ⟨none, none, none, -1, none⟩ = some (some []) ∧
    ¬ ((([] : List Quote).length : Int) =
        min (⟨none, none, none, -1, none⟩ : GetCriteria).count
          (([qA].filter
            (fun q => matchesAllGet ⟨none, none, none, -1, none⟩ q)).length : Int)) := by
  constructor
  · decide
  · decide

/-- C6 amended: whenever `getQuotes` returns a list, the list has exactly
`(min count M).toNat` = max(0, min(count, M)) elements, where M is the
number of corpus quotes satisfying all the filters (so exactly
min(count, M) whenever count ≥ 0, e.g. count = 1000 against 5 matches
yields 5), and every returned quote satisfies all the filters, the length
bounds being inclusive. -/
theorem c6_amended (qd : List Quote) (rand : Nat → Nat) (c : GetCriteria)
    (qs : List Quote) (h : getQuotes qd rand c = some (some qs)) :
    qs.length =
      (min c.count ((qd.filter (fun q => matchesAllGet c q)).length : Int)).toNat ∧
    ∀ q ∈ qs, matchesAllGet c q = true := by
  have he := getQuotes_eq_some h
  by_cases h0 : (qd.filter (fun q => matchesAllGet c q)).length = 0
  · rw [if_pos h0] at he
    exact absurd he (by simp)
  · rw [if_neg h0] at he
    have hqseq := Option.some.inj he
    have hkle : (min c.count ((qd.filter (fun q => matchesAllGet c q)).length : Int)).toNat ≤
        (qd.filter (fun q => matchesAllGet c q)).length :=
      Int.toNat_le.mpr (min_le_right _ _)
    have hls := sampleLoop_length_subperm rand _ 0 _ hkle
    subst hqseq
    refine ⟨hls.1, ?_⟩
    intro q hqmem
    have hmem := hls.2.subset hqmem
    exact (List.mem_filter.mp hmem).2

/-- C6 witness: a quote of length exactly 50 passes minLength = 50 and
maxLength = 50, and count = 1000 is clamped to the single match. -/
theorem c6_amended_witness :
    getQuotes [qC] rand0 ⟨some 50, some 50, none, 1000, none⟩ = some (some [qC]) ∧
    (([qC] : List Quote).length =
      (min (⟨some 50, some 50, none, 1000, none⟩ : GetCriteria).count
        (([qC].filter
          (fun q => matchesAllGet ⟨some 50, some 50, none, 1000, none⟩ q)).length : Int)).toNat ∧
    ∀ q ∈ [qC], matchesAllGet ⟨some 50, some 50, none, 1000, none⟩ q = true) :=
  ⟨by decide,
    c6_amended [qC] rand0 ⟨some 50, some 50, none, 1000, none⟩ [qC] (by decide)⟩

/-- C8: whenever the filter pipeline completes without an error, the
candidate list `getQuotes` feeds to the sampling loop equals the corpus
filtered by the pointwise conjunction of the author, tag and length
predicates; `getQuotes` is exactly "candidates, then checkpoint, then
sample"; and applying any permutation of a list of filters to the corpus
yields the same list, so the fixed order author → tags → length does not
affect the candidate set. -/
theorem c8_candidates_conjunction (qd : List Quote) (rand : Nat → Nat)
    (c : GetCriteria) (cands : List Quote)
    (h : getQuotesCandidates qd c = some cands) :
    cands = qd.filter (fun q => matchesAllGet c q) ∧
    getQuotes qd rand c =
      some (if cands.length = 0 then none
            else some (sampleLoop rand 0 (min c.count (cands.length : Int)).toNat cands)) ∧
    (∀ ps qs : List (Quote → Bool), ps.Perm qs → applyFilters qd ps = applyFilters qd qs) := by
  refine ⟨getQuotesCandidates_eq_filter h, ?_,
    fun ps qs hperm => applyFilters_perm hperm qd⟩
  rw [getQuotes_via_candidates, h, Option.some_bind]

/-- C8 witness: the candidate pipeline on a two-quote corpus with a tag
filter. -/
theorem c8_candidates_conjunction_witness :
    getQuotesCandidates [qA, qB] ⟨none, none, some ["humor"], 1, none⟩ = some [qB] ∧
    (([qB] : List Quote) =
      [qA, qB].filter (fun q => matchesAllGet ⟨none, none, some ["humor"], 1, none⟩ q) ∧
    getQuotes [qA, qB] rand0 ⟨none, none, some ["humor"], 1, none⟩ =
      some (if ([qB] : List Quote).length = 0 then none
            else some (sampleLoop rand0 0
              (min (⟨none, none, some ["humor"], 1, none⟩ : GetCriteria).count
                (([qB] : List Quote).length : Int)).toNat [qB])) ∧
    (∀ ps qs : List (Quote → Bool), ps.Perm qs →
      applyFilters [qA, qB] ps = applyFilters [qA, qB] qs)) :=
  ⟨by decide,
    c8_candidates_conjunction [qA, qB] rand0 ⟨none, none, some ["humor"], 1, none⟩
      [qB] (by decide)⟩

/-- C9: on the store model of JS arrays, `getQuotes` and `searchQuotes`
leave the shared corpus cell unchanged: each call copies the corpus into
a fresh cell, filtering produces request-local lists, and the only
destructive operation — the splice inside the sampling loop — writes only
the freshly allocated working-copy cell, so the corpus array (and every
quote value in it) is identical before and after any call. -/
theorem c9_corpus_never_mutated (rand : Nat → Nat) (st : Store) (corpusRef : Nat)
    (c : GetCriteria) (s : SearchCriteria) (hr : corpusRef < st.length) :
    ((getQuotesSt rand st corpusRef c).2)[corpusRef]? = st[corpusRef]? ∧
    ((searchQuotesSt rand st corpusRef s).2)[corpusRef]? = st[corpusRef]? :=
  ⟨getQuotesSt_preserves rand st corpusRef c hr,
   searchQuotesSt_preserves rand st corpusRef s hr⟩

/-- C9 witness: a one-cell store holding a two-quote corpus. -/
theorem c9_corpus_never_mutated_witness :
    (0 : Nat) < ([[qA, qB]] : Store).length ∧
    (((getQuotesSt rand0 [[qA, qB]] 0 ⟨none, none, none, 2, none⟩).2)[0]? =
      ([[qA, qB]] : Store)[0]? ∧
    ((searchQuotesSt rand0 [[qA, qB]] 0 ⟨none, none, [], 2, []⟩).2)[0]? =
      ([[qA, qB]] : Store)[0]?) :=
  ⟨by decide,
    c9_corpus_never_mutated rand0 [[qA, qB]] 0 ⟨none, none, none, 2, none⟩
      ⟨none, none, [], 2, []⟩ (by decide)⟩

/-- C10: for criteria with count ≤ 0 under which at least one corpus
quote satisfies all filters, a non-throwing `getQuotes` call returns the
empty list (Math.min clamps to count and the loop runs zero times), not
NoMatch and not an error; likewise `searchQuotes` with limit ≤ 0. -/
theorem c10_nonpositive_count_empty (qd : List Quote) (rand : Nat → Nat)
    (c : GetCriteria) (s : SearchCriteria) :
    (∀ r, getQuotes qd rand c = some r → c.count ≤ 0 →
      (∃ q ∈ qd, matchesAllGet c q = true) → r = some []) ∧
    (∀ r, searchQuotes qd rand s = some r → s.limit ≤ 0 →
      (∃ q ∈ qd, matchesAllSearch s q = true) → r = some []) := by
  constructor
  · intro r hr hcnt hex
    have he := getQuotes_eq_some hr
    obtain ⟨q, hqm, hmat⟩ := hex
    have hmem : q ∈ qd.filter (fun q => matchesAllGet c q) :=
      List.mem_filter.mpr ⟨hqm, hmat⟩
    have h0 : (qd.filter (fun q => matchesAllGet c q)).length ≠ 0 := by
      intro h0
      rw [List.length_eq_zero.mp h0] at hmem
      exact absurd hmem (List.not_mem_nil q)
    rw [if_neg h0] at he
    have hk0 : (min c.count ((qd.filter (fun q => matchesAllGet c q)).length : Int)).toNat
        = 0 :=
      Int.toNat_of_nonpos (le_trans (min_le_left _ _) hcnt)
    rw [hk0] at he
    exact he
  · intro r hr hlim hex
    have he := searchQuotes_eq_some hr
    obtain ⟨q, hqm, hmat⟩ := hex
    have hmem : q ∈ qd.filter (fun q => matchesAllSearch s q) :=
      List.mem_filter.mpr ⟨hqm, hmat⟩
    have h0 : (qd.filter (fun q => matchesAllSearch s q)).length ≠ 0 := by
      intro h0
      rw [List.length_eq_zero.mp h0] at hmem
      exact absurd hmem (List.not_mem_nil q)
    rw [if_neg h0] at he
    have hk0 : (min s.limit ((qd.filter (fun q => matchesAllSearch s q)).length : Int)).toNat
        = 0 :=
      Int.toNat_of_nonpos (le_trans (min_le_left _ _) hlim)
    rw [hk0] at he
    exact he

/-- C10 witness: count 0 and limit 0 against a matching one-quote corpus
return the empty array. -/
theorem c10_nonpositive_count_empty_witness :
    getQuotes [qA] rand0 ⟨none, none, none, 0, none⟩ = some (some []) ∧
    (0 : Int) ≤ 0 ∧
    (∃ q ∈ [qA], matchesAllGet ⟨none, none, none, 0, none⟩ q = true) ∧
    (some ([] : List Quote) : Option (List Quote)) = some [] :=
  ⟨by decide, by decide, by decide,
    (c10_nonpositive_count_empty [qA] rand0 ⟨none, none, none, 0, none⟩
      ⟨none, none, [], 0, []⟩).1 (some []) (by decide) (by decide) (by decide)⟩

end QuoteSlate
